import Mathlib

/-
Verification development for the max-defense knapsack solvers of
`maxdefense.hh`.

The two solvers are embedded shallowly:

* `ArmorItem` mirrors the C++ class `ArmorItem` (description, positive gold
  cost stored as an integer, defense points stored as a `double`).  The
  `double` defense values are modelled by exact rationals: every operation the
  solvers perform on them is addition, subtraction, `std::max` and comparison.
* `sum_armor_cost` / `sum_armor_defense` embed the two accumulators of
  `sum_armor_vector`.
* `matrixEntry` embeds the table `matrix` built by `dynamic_max_defense`;
  `reconstructLoop` embeds its reconstruction `while` loop, returning both the
  collected items and the value of the loop variable `n` at loop exit.
* `maskSubset`, `exhaustiveLoop` and `exhaustive_max_defense` embed the
  bitmask enumeration of `exhaustive_max_defense`; the `assert(n < 64)` is
  modelled by returning `none` when the catalog has 64 or more items.
-/

/-- Embedding of the C++ class `ArmorItem`: a description (non-empty in the
C++ constructor), a cost in gold (asserted positive at construction, stored in
an `int`) and a defense value (a `double`, modelled as an exact rational). -/
structure ArmorItem where
  description : String
  cost_gold : ℕ
  defense_points : ℚ
  deriving DecidableEq

/-- Embedding of the `total_cost` accumulator of `sum_armor_vector`:
the sum of the costs of the items of the vector. -/
def sum_armor_cost (armors : List ArmorItem) : ℕ :=
  (armors.map ArmorItem.cost_gold).sum

/-- Embedding of the `total_defense` accumulator of `sum_armor_vector`:
the sum of the defense points of the items of the vector. -/
def sum_armor_defense (armors : List ArmorItem) : ℚ :=
  (armors.map ArmorItem.defense_points).sum

/-- Embedding of `std::max` on `double` values: `std::max(a, b)` returns `b`
when `a < b` and `a` otherwise.  (Spelled out rather than using `Max.max` so
that concrete inputs evaluate inside the kernel.) -/
def cppMax (a b : ℚ) : ℚ := if a < b then b else a

/-- Embedding of the table `matrix` built by `dynamic_max_defense`.
`matrixEntry armors i c` is the value `matrix[i].at(c)`:
`0` when `i == 0 || j == 0`; otherwise, when `c >= armors.at(i-1)->cost()`,
`max(armors.at(i-1)->defense() + matrix[i-1].at(c - cost), matrix[i-1].at(c))`,
and `matrix[i-1].at(c)` when the item does not fit.  The `none` branch of the
lookup is never taken for `i ≤ armors.length`, the only indices the C++ code
ever builds (`armors.at(i-1)` would throw out of range). -/
def matrixEntry (armors : List ArmorItem) : ℕ → ℕ → ℚ
  | 0, _ => 0
  | i + 1, c =>
    if c = 0 then 0
    else
      match armors[i]? with
      | some a =>
        if a.cost_gold ≤ c then
          cppMax (a.defense_points + matrixEntry armors i (c - a.cost_gold))
            (matrixEntry armors i c)
        else matrixEntry armors i c
      | none => matrixEntry armors i c

/-- Embedding of the reconstruction loop of `dynamic_max_defense`:
`while (matrixValue != 0 && n != 0) { if (matrix[n].at(maxcost) !=
matrix[n-1].at(maxcost)) { push armors.at(n-1); matrixValue -= defense;
maxcost -= cost; } n--; }`.  The arguments are the loop state `(n, maxcost,
matrixValue)`; the result pairs the pushed items (in push order, i.e.
decreasing catalog index) with the value of `n` when the loop exits.
The `none` branch is unreachable for `n ≤ armors.length`. -/
def reconstructLoop (armors : List ArmorItem) : ℕ → ℕ → ℚ → List ArmorItem × ℕ
  | 0, _, _ => ([], 0)
  | i + 1, c, mv =>
    if mv = 0 then ([], i + 1)
    else
      match armors[i]? with
      | some a =>
        if matrixEntry armors (i + 1) c ≠ matrixEntry armors i c then
          let rest := reconstructLoop armors i (c - a.cost_gold) (mv - a.defense_points)
          (a :: rest.1, rest.2)
        else reconstructLoop armors i c mv
      | none => reconstructLoop armors i c mv

/-- Embedding of `dynamic_max_defense(armors, total_cost)`: build the table,
then run the reconstruction loop from `n = armors.size()`, `maxcost =
total_cost`, `matrixValue = matrix[n].at(maxcost)`, and return the collected
items. -/
def dynamic_max_defense (armors : List ArmorItem) (total_cost : ℕ) : List ArmorItem :=
  (reconstructLoop armors armors.length total_cost
    (matrixEntry armors armors.length total_cost)).1

/-- Reconstruction walk as the specification describes it (§4.2/§9): identical
inclusion test (comparison of adjacent table entries), but the loop terminates
strictly when the prefix index reaches `0`, with no residual-benefit test.
This definition follows the words of the specification and is compared with
the embedded loop `reconstructLoop` of the source. -/
def reconstructSpec (armors : List ArmorItem) : ℕ → ℕ → List ArmorItem
  | 0, _ => []
  | i + 1, c =>
    match armors[i]? with
    | some a =>
      if matrixEntry armors (i + 1) c ≠ matrixEntry armors i c then
        a :: reconstructSpec armors i (c - a.cost_gold)
      else reconstructSpec armors i c
    | none => reconstructSpec armors i c

/-- Embedding of the inner loop of `exhaustive_max_defense`:
`for (j = 0; j < n; j++) if (((bits >> j) & 1) == 1) candidate->push_back(armors[j])`.
The candidate subset of mask `bits` holds item `j` exactly when bit `j` of
`bits` is set, in increasing index order. -/
def maskSubset (armors : List ArmorItem) (bits : ℕ) : List ArmorItem :=
  (List.range armors.length).filterMap
    (fun j => if Nat.testBit bits j then armors[j]? else none)

/-- Embedding of the outer loop of `exhaustive_max_defense` after `k`
iterations (masks `0 .. k-1` processed): the pair `(best, best_defense)`.
The state starts at `(empty, 0.0)`; for each mask the candidate subset is
summed, and when `total_gold_cost <= total_cost` and `cand_defense >
best_defense` the candidate replaces the best (the `best == nullptr` disjunct
of the C++ condition is vacuous: `best` is never null).  The iteration count
is a natural number here; the source's loop counter is a 32-bit `int`, so
this state function coincides with the source loop exactly for the mask
values `0 .. INT_MAX` that the counter can represent — `exhaustive_max_defense`
below invokes it only on that faithful range. -/
def exhaustiveLoop (armors : List ArmorItem) (total_cost : ℚ) :
    ℕ → List ArmorItem × ℚ
  | 0 => ([], 0)
  | k + 1 =>
    let prev := exhaustiveLoop armors total_cost k
    let candidate := maskSubset armors k
    let cand_defense := sum_armor_defense candidate
    if (sum_armor_cost candidate : ℚ) ≤ total_cost then
      if cand_defense > prev.2 then (candidate, cand_defense) else prev
    else prev

/-- Largest value of the C++ loop counter `bits` of `exhaustive_max_defense`,
which is declared `int` (32-bit two's complement signed integer). -/
def cppIntMax : ℤ := 2 ^ 31 - 1

/-- Exact value of the loop bound `pow(2, n)` of `exhaustive_max_defense`
(a power of two below `2^1024` is represented exactly by a `double`, and the
comparison `bits < pow(2, n)` promotes `bits` to `double` exactly). -/
def powBound (n : ℕ) : ℤ := 2 ^ n

/-- Embedding of `exhaustive_max_defense(armors, total_cost)`.  The
`assert(n < 64)` abort at 64 or more items is modelled by `none`.  Past the
assert, the loop `for (int bits = 0; bits < pow(2, n); bits++)` terminates
only by reaching the exit value `bits = 2^n`, which the 32-bit counter can
represent only when `2^n ≤ INT_MAX`, i.e. `n ≤ 30`; on that range the loop
processes the masks `0 .. 2^n - 1` exactly.  For `31 ≤ n < 64` the guard is
true for every representable counter value, incrementing past `INT_MAX` is
signed-integer overflow, and the call produces no result — also modelled by
`none`. -/
def exhaustive_max_defense (armors : List ArmorItem) (total_cost : ℚ) :
    Option (List ArmorItem) :=
  if armors.length < 64 then
    if powBound armors.length ≤ cppIntMax then
      some (exhaustiveLoop armors total_cost (2 ^ armors.length)).1
    else none
  else none

/-- Items used by concrete test inputs below (scenario 1 of §8 of the
specification). -/
def itemA : ArmorItem := ⟨"a", 2, 3⟩

/-- Second sample item. -/
def itemB : ArmorItem := ⟨"b", 3, 4⟩

/-- Third sample item. -/
def itemC : ArmorItem := ⟨"c", 4, 5⟩

/-- Fourth sample item. -/
def itemD : ArmorItem := ⟨"d", 5, 6⟩

/-- Sample catalog of scenario 1 of §8 of the specification. -/
def sampleCatalog : List ArmorItem := [itemA, itemB, itemC, itemD]

theorem cppMax_eq_max (a b : ℚ) : cppMax a b = max a b := by
  unfold cppMax
  rcases lt_or_le a b with h | h
  · rw [if_pos h, max_eq_right h.le]
  · rw [if_neg (not_lt.2 h), max_eq_left h]

theorem matrixEntry_c_zero (armors : List ArmorItem) (i : ℕ) :
    matrixEntry armors i 0 = 0 := by
  cases i <;> simp [matrixEntry]

theorem matrixEntry_succ_none (armors : List ArmorItem) {i : ℕ} (c : ℕ)
    (h : armors[i]? = none) :
    matrixEntry armors (i + 1) c = matrixEntry armors i c := by
  rcases Nat.eq_zero_or_pos c with rfl | hc
  · rw [matrixEntry_c_zero, matrixEntry_c_zero]
  · simp [matrixEntry, Nat.pos_iff_ne_zero.1 hc, h]

theorem matrixEntry_succ_of_le (armors : List ArmorItem) {i : ℕ} {c : ℕ}
    {a : ArmorItem} (h : armors[i]? = some a) (hc : c ≠ 0)
    (hle : a.cost_gold ≤ c) :
    matrixEntry armors (i + 1) c =
      max (a.defense_points + matrixEntry armors i (c - a.cost_gold))
        (matrixEntry armors i c) := by
  rw [← cppMax_eq_max]
  simp [matrixEntry, hc, h, hle]

theorem matrixEntry_succ_of_gt (armors : List ArmorItem) {i : ℕ} {c : ℕ}
    {a : ArmorItem} (h : armors[i]? = some a) (hgt : c < a.cost_gold) :
    matrixEntry armors (i + 1) c = matrixEntry armors i c := by
  rcases Nat.eq_zero_or_pos c with rfl | hc
  · rw [matrixEntry_c_zero, matrixEntry_c_zero]
  · simp [matrixEntry, Nat.pos_iff_ne_zero.1 hc, h, Nat.not_le.2 hgt]

theorem matrixEntry_le_succ (armors : List ArmorItem) (i c : ℕ) :
    matrixEntry armors i c ≤ matrixEntry armors (i + 1) c := by
  rcases Nat.eq_zero_or_pos c with rfl | hc
  · rw [matrixEntry_c_zero, matrixEntry_c_zero]
  · cases h : armors[i]? with
    | none => rw [matrixEntry_succ_none armors c h]
    | some a =>
      rcases Nat.lt_or_ge c a.cost_gold with hgt | hle
      · rw [matrixEntry_succ_of_gt armors h hgt]
      · rw [matrixEntry_succ_of_le armors h (Nat.pos_iff_ne_zero.1 hc) hle]
        exact le_max_right _ _

theorem matrixEntry_nonneg (armors : List ArmorItem) (i c : ℕ) :
    0 ≤ matrixEntry armors i c := by
  induction i with
  | zero => simp [matrixEntry]
  | succ i ih =>
    exact le_trans ih (matrixEntry_le_succ armors i c)

/-- When adjacent table entries differ, the prefix item fits in the remaining
budget and the larger entry is obtained by including it. -/
theorem matrixEntry_ne_elim (armors : List ArmorItem) {i c : ℕ}
    {a : ArmorItem} (h : armors[i]? = some a)
    (hne : matrixEntry armors (i + 1) c ≠ matrixEntry armors i c) :
    a.cost_gold ≤ c ∧
      matrixEntry armors (i + 1) c =
        a.defense_points + matrixEntry armors i (c - a.cost_gold) := by
  rcases Nat.eq_zero_or_pos c with rfl | hc
  · exact absurd (by rw [matrixEntry_c_zero, matrixEntry_c_zero]) hne
  · rcases Nat.lt_or_ge c a.cost_gold with hgt | hle
    · exact absurd (matrixEntry_succ_of_gt armors h hgt) hne
    · refine ⟨hle, ?_⟩
      rw [matrixEntry_succ_of_le armors h (Nat.pos_iff_ne_zero.1 hc) hle] at hne ⊢
      rcases max_choice (a.defense_points + matrixEntry armors i (c - a.cost_gold))
          (matrixEntry armors i c) with h1 | h1
      · exact h1
      · exact absurd h1 hne

theorem sum_armor_cost_nil : sum_armor_cost [] = 0 := rfl

theorem sum_armor_defense_nil : sum_armor_defense [] = 0 := rfl

theorem sum_armor_cost_cons (a : ArmorItem) (l : List ArmorItem) :
    sum_armor_cost (a :: l) = a.cost_gold + sum_armor_cost l := by
  simp [sum_armor_cost]

theorem sum_armor_defense_cons (a : ArmorItem) (l : List ArmorItem) :
    sum_armor_defense (a :: l) = a.defense_points + sum_armor_defense l := by
  simp [sum_armor_defense]

theorem sum_armor_cost_append (l₁ l₂ : List ArmorItem) :
    sum_armor_cost (l₁ ++ l₂) = sum_armor_cost l₁ + sum_armor_cost l₂ := by
  simp [sum_armor_cost]

theorem sum_armor_defense_append (l₁ l₂ : List ArmorItem) :
    sum_armor_defense (l₁ ++ l₂) = sum_armor_defense l₁ + sum_armor_defense l₂ := by
  simp [sum_armor_defense]

/-- A non-empty selection of positive-cost items has positive total cost. -/
theorem sum_armor_cost_pos {S : List ArmorItem}
    (hpos : ∀ a ∈ S, 0 < a.cost_gold) (hne : S ≠ []) :
    0 < sum_armor_cost S := by
  cases S with
  | nil => exact absurd rfl hne
  | cons a t =>
    rw [sum_armor_cost_cons]
    exact Nat.lt_of_lt_of_le (hpos a (List.mem_cons_self a t)) (Nat.le_add_right _ _)

/-- Upper bound direction of the dynamic-programming invariant: every
selection among the first `i` items whose total cost fits in `c` has total
defense at most `matrixEntry armors i c`. -/
theorem sum_defense_le_matrixEntry (armors : List ArmorItem)
    (hpos : ∀ a ∈ armors, 0 < a.cost_gold) :
    ∀ i c S, List.Sublist S (armors.take i) → sum_armor_cost S ≤ c →
      sum_armor_defense S ≤ matrixEntry armors i c := by
  intro i
  induction i with
  | zero =>
    intro c S hS _
    rw [List.take_zero] at hS
    rw [List.sublist_nil.1 hS, sum_armor_defense_nil]
    exact matrixEntry_nonneg armors 0 c
  | succ i ih =>
    intro c S hS hcost
    rcases Nat.eq_zero_or_pos c with rfl | hc
    · -- zero budget: positivity of costs forces the empty selection
      have hS' : S = [] := by
        by_contra hne
        have := sum_armor_cost_pos
          (fun a ha => hpos a (List.Sublist.subset (hS.trans (List.take_sublist _ _)) ha)) hne
        omega
      rw [hS', sum_armor_defense_nil]
      exact matrixEntry_nonneg armors (i + 1) 0
    · cases h : armors[i]? with
      | none =>
        have hlen : armors.length ≤ i := List.getElem?_eq_none_iff.1 h
        rw [matrixEntry_succ_none armors c h]
        refine ih c S ?_ hcost
        rwa [List.take_of_length_le hlen, ← List.take_of_length_le (Nat.le_succ_of_le hlen)]
      | some a =>
        have hlen : i < armors.length := (List.getElem?_eq_some.1 h).1
        have htake : armors.take (i + 1) = armors.take i ++ [a] := by
          rw [List.take_succ, h, Option.toList_some]
        rw [htake] at hS
        rcases List.sublist_append_iff.1 hS with ⟨S₁, S₂, rfl, hS₁, hS₂⟩
        rcases List.sublist_singleton.1 hS₂ with rfl | rfl
        · -- the selection does not use item `i`
          rw [List.append_nil] at hcost ⊢
          exact le_trans (ih c S₁ hS₁ hcost) (matrixEntry_le_succ armors i c)
        · -- the selection ends with item `i`
          rw [sum_armor_cost_append, sum_armor_cost_cons] at hcost
          rw [sum_armor_defense_append, sum_armor_defense_cons]
          have hfit : a.cost_gold ≤ c := by omega
          have hS₁cost : sum_armor_cost S₁ ≤ c - a.cost_gold := by omega
          rw [matrixEntry_succ_of_le armors h (Nat.pos_iff_ne_zero.1 hc) hfit]
          calc sum_armor_defense S₁ + (a.defense_points + 0)
              ≤ a.defense_points + matrixEntry armors i (c - a.cost_gold) := by
                have := ih (c - a.cost_gold) S₁ hS₁ hS₁cost
                rw [add_zero]
                linarith
            _ ≤ _ := le_max_left _ _

/-- Achievability direction of the dynamic-programming invariant: the table
value `matrixEntry armors i c` is attained by a selection among the first `i`
items whose total cost fits in `c`. -/
theorem matrixEntry_achievable (armors : List ArmorItem) :
    ∀ i c, ∃ S, List.Sublist S (armors.take i) ∧ sum_armor_cost S ≤ c ∧
      sum_armor_defense S = matrixEntry armors i c := by
  intro i
  induction i with
  | zero =>
    intro c
    exact ⟨[], List.nil_sublist _, Nat.zero_le c, by simp [matrixEntry, sum_armor_defense_nil]⟩
  | succ i ih =>
    intro c
    have htakesub : List.Sublist (armors.take i) (armors.take (i + 1)) := by
      have : armors.take i = (armors.take (i + 1)).take i := by
        rw [List.take_take]
        congr 1
        omega
      rw [this]
      exact List.take_sublist _ _
    rcases Nat.eq_zero_or_pos c with rfl | hc
    · exact ⟨[], List.nil_sublist _, Nat.le_refl 0,
        by rw [sum_armor_defense_nil, matrixEntry_c_zero]⟩
    · cases h : armors[i]? with
      | none =>
        rcases ih c with ⟨S, hS, hcost, hdef⟩
        exact ⟨S, hS.trans htakesub, hcost, by rw [hdef, matrixEntry_succ_none armors c h]⟩
      | some a =>
        have htake : armors.take (i + 1) = armors.take i ++ [a] := by
          rw [List.take_succ, h, Option.toList_some]
        rcases Nat.lt_or_ge c a.cost_gold with hgt | hle
        · rcases ih c with ⟨S, hS, hcost, hdef⟩
          exact ⟨S, hS.trans htakesub, hcost,
            by rw [hdef, matrixEntry_succ_of_gt armors h hgt]⟩
        · rw [matrixEntry_succ_of_le armors h (Nat.pos_iff_ne_zero.1 hc) hle]
          rcases max_choice (a.defense_points + matrixEntry armors i (c - a.cost_gold))
              (matrixEntry armors i c) with h1 | h1
          · rcases ih (c - a.cost_gold) with ⟨S, hS, hcost, hdef⟩
            refine ⟨S ++ [a], ?_, ?_, ?_⟩
            · rw [htake]
              exact List.Sublist.append hS (List.Sublist.refl [a])
            · rw [sum_armor_cost_append, sum_armor_cost_cons, sum_armor_cost_nil]
              omega
            · rw [sum_armor_defense_append, sum_armor_defense_cons,
                sum_armor_defense_nil, h1, hdef]
              ring
          · rcases ih c with ⟨S, hS, hcost, hdef⟩
            exact ⟨S, hS.trans htakesub, hcost, by rw [hdef, h1]⟩

/-- The specification's reconstruction walk realises the table value: its
items' total defense equals `matrixEntry armors i c` and their total cost
fits in `c`. -/
theorem reconstructSpec_sums (armors : List ArmorItem) :
    ∀ i c, i ≤ armors.length →
      sum_armor_defense (reconstructSpec armors i c) = matrixEntry armors i c ∧
        sum_armor_cost (reconstructSpec armors i c) ≤ c := by
  intro i
  induction i with
  | zero =>
    intro c _
    constructor
    · show sum_armor_defense [] = matrixEntry armors 0 c
      rw [sum_armor_defense_nil]
      simp [matrixEntry]
    · show sum_armor_cost [] ≤ c
      rw [sum_armor_cost_nil]
      exact Nat.zero_le c
  | succ i ih =>
    intro c hi
    have hlt : i < armors.length := hi
    have h : armors[i]? = some armors[i] := List.getElem?_eq_getElem hlt
    by_cases hne : matrixEntry armors (i + 1) c ≠ matrixEntry armors i c
    · rcases matrixEntry_ne_elim armors h hne with ⟨hfit, heq⟩
      have hrec : reconstructSpec armors (i + 1) c =
          armors[i] :: reconstructSpec armors i (c - armors[i].cost_gold) := by
        simp [reconstructSpec, h, hne]
      rcases ih (c - armors[i].cost_gold) (Nat.le_of_lt hlt) with ⟨hd, hcst⟩
      constructor
      · rw [hrec, sum_armor_defense_cons, hd, heq]
      · rw [hrec, sum_armor_cost_cons]
        omega
    · have heq : matrixEntry armors (i + 1) c = matrixEntry armors i c :=
        not_not.1 hne
      have hrec : reconstructSpec armors (i + 1) c = reconstructSpec armors i c := by
        simp [reconstructSpec, h, hne]
      rcases ih c (Nat.le_of_lt hlt) with ⟨hd, hcst⟩
      exact ⟨by rw [hrec, hd, heq], by rw [hrec]; exact hcst⟩

/-- When the table entry is zero, the specification's walk collects nothing. -/
theorem reconstructSpec_of_zero (armors : List ArmorItem) :
    ∀ i c, matrixEntry armors i c = 0 → reconstructSpec armors i c = [] := by
  intro i
  induction i with
  | zero => intro c _; rfl
  | succ i ih =>
    intro c hz
    have hz' : matrixEntry armors i c = 0 :=
      le_antisymm (hz ▸ matrixEntry_le_succ armors i c) (matrixEntry_nonneg armors i c)
    have hne : ¬ matrixEntry armors (i + 1) c ≠ matrixEntry armors i c := by
      rw [hz, hz']
      exact not_not.2 rfl
    cases h : armors[i]? with
    | some a => simp [reconstructSpec, h, hne, ih c hz']
    | none => simp [reconstructSpec, h, ih c hz']

/-- The residual-benefit early exit of the source's reconstruction loop is
harmless in exact arithmetic: started at the table value, the loop collects
exactly the items of the specification's strict walk. -/
theorem reconstructLoop_eq_spec (armors : List ArmorItem) :
    ∀ i c, i ≤ armors.length →
      (reconstructLoop armors i c (matrixEntry armors i c)).1 =
        reconstructSpec armors i c := by
  intro i
  induction i with
  | zero => intro c _; rfl
  | succ i ih =>
    intro c hi
    have hlt : i < armors.length := hi
    have h : armors[i]? = some armors[i] := List.getElem?_eq_getElem hlt
    by_cases hz : matrixEntry armors (i + 1) c = 0
    · have : reconstructLoop armors (i + 1) c (matrixEntry armors (i + 1) c) =
          ([], i + 1) := by
        simp [reconstructLoop, hz]
      rw [this, reconstructSpec_of_zero armors (i + 1) c hz]
    · by_cases hne : matrixEntry armors (i + 1) c ≠ matrixEntry armors i c
      · rcases matrixEntry_ne_elim armors h hne with ⟨hfit, heq⟩
        have hmv : matrixEntry armors (i + 1) c - armors[i].defense_points =
            matrixEntry armors i (c - armors[i].cost_gold) := by
          rw [heq]; ring
        have hrecL : (reconstructLoop armors (i + 1) c (matrixEntry armors (i + 1) c)).1 =
            armors[i] :: (reconstructLoop armors i (c - armors[i].cost_gold)
              (matrixEntry armors (i + 1) c - armors[i].defense_points)).1 := by
          simp [reconstructLoop, hz, h, hne]
        rw [hrecL, hmv, ih (c - armors[i].cost_gold) (Nat.le_of_lt hlt)]
        simp [reconstructSpec, h, hne]
      · have heq : matrixEntry armors (i + 1) c = matrixEntry armors i c :=
          not_not.1 hne
        have hrecL : (reconstructLoop armors (i + 1) c (matrixEntry armors (i + 1) c)).1 =
            (reconstructLoop armors i c (matrixEntry armors i c)).1 := by
          rw [show (reconstructLoop armors (i + 1) c (matrixEntry armors (i + 1) c)) =
            reconstructLoop armors i c (matrixEntry armors (i + 1) c) by
              simp [reconstructLoop, hz, h, hne], heq]
        rw [hrecL, ih c (Nat.le_of_lt hlt)]
        simp [reconstructSpec, h, hne]

/-- The result of the dynamic solver coincides with the specification's
strict reconstruction walk. -/
theorem dynamic_eq_reconstructSpec (armors : List ArmorItem) (total_cost : ℕ) :
    dynamic_max_defense armors total_cost =
      reconstructSpec armors armors.length total_cost :=
  reconstructLoop_eq_spec armors armors.length total_cost (Nat.le_refl _)

/-- Aggregate defense of the dynamic solver's result is the table optimum,
and its aggregate cost fits in the budget. -/
theorem dynamic_sums (armors : List ArmorItem) (total_cost : ℕ) :
    sum_armor_defense (dynamic_max_defense armors total_cost) =
      matrixEntry armors armors.length total_cost ∧
      sum_armor_cost (dynamic_max_defense armors total_cost) ≤ total_cost := by
  rw [dynamic_eq_reconstructSpec]
  exact reconstructSpec_sums armors armors.length total_cost (Nat.le_refl _)

theorem maskSubset_nil (bits : ℕ) : maskSubset [] bits = [] := rfl

/-- Structural characterisation of the candidate subset of a mask: bit `0`
decides the head, the remaining bits select from the tail. -/
theorem maskSubset_cons (a : ArmorItem) (l : List ArmorItem) (bits : ℕ) :
    maskSubset (a :: l) bits =
      (if bits % 2 = 1 then [a] else []) ++ maskSubset l (bits / 2) := by
  unfold maskSubset
  rw [List.length_cons, List.range_succ_eq_map, List.filterMap_cons, List.filterMap_map]
  have htail : List.filterMap
      ((fun j => if Nat.testBit bits j then (a :: l)[j]? else none) ∘ Nat.succ)
      (List.range l.length) =
      List.filterMap (fun j => if Nat.testBit (bits / 2) j then l[j]? else none)
      (List.range l.length) := by
    congr 1
    funext j
    have h1 : Nat.testBit bits (Nat.succ j) = Nat.testBit (bits / 2) j :=
      Nat.testBit_succ bits j
    have h2 : (a :: l)[Nat.succ j]? = l[j]? := List.getElem?_cons_succ
    simp [Function.comp, h1, h2]
  rw [htail]
  by_cases hb : bits % 2 = 1
  · have : Nat.testBit bits 0 = true := by
      rw [Nat.testBit_zero]
      exact decide_eq_true hb
    simp [this, hb]
  · have : Nat.testBit bits 0 = false := by
      rw [Nat.testBit_zero]
      exact decide_eq_false hb
    simp [this, hb]

/-- Every candidate subset is a subsequence of the catalog. -/
theorem maskSubset_sublist (armors : List ArmorItem) (bits : ℕ) :
    List.Sublist (maskSubset armors bits) armors := by
  induction armors generalizing bits with
  | nil => rw [maskSubset_nil]
  | cons a l ih =>
    rw [maskSubset_cons]
    by_cases hb : bits % 2 = 1
    · rw [if_pos hb]
      exact List.Sublist.cons₂ a (ih (bits / 2))
    · rw [if_neg hb, List.nil_append]
      exact List.Sublist.cons a (ih (bits / 2))

/-- Completeness of the enumeration: every subsequence of the catalog is the
candidate subset of some mask below `2 ^ n`. -/
theorem exists_mask (armors : List ArmorItem) :
    ∀ S, List.Sublist S armors →
      ∃ bits, bits < 2 ^ armors.length ∧ maskSubset armors bits = S := by
  intro S hS
  induction hS with
  | slnil => exact ⟨0, by norm_num, rfl⟩
  | @cons S l a _ ih =>
    rcases ih with ⟨bits, hlt, heq⟩
    refine ⟨2 * bits, ?_, ?_⟩
    · rw [List.length_cons, pow_succ]
      omega
    · rw [maskSubset_cons]
      have h2 : (2 * bits) % 2 = 0 := Nat.mul_mod_right 2 bits
      have h3 : (2 * bits) / 2 = bits := by omega
      rw [h3, heq]
      simp [h2]
  | @cons₂ S l a _ ih =>
    rcases ih with ⟨bits, hlt, heq⟩
    refine ⟨2 * bits + 1, ?_, ?_⟩
    · rw [List.length_cons, pow_succ]
      omega
    · rw [maskSubset_cons]
      have h2 : (2 * bits + 1) % 2 = 1 := by omega
      have h3 : (2 * bits + 1) / 2 = bits := by omega
      rw [h2, h3, heq]
      simp

theorem exhaustiveLoop_zero (armors : List ArmorItem) (total_cost : ℚ) :
    exhaustiveLoop armors total_cost 0 = ([], 0) := rfl

/-- One unfolding step of the exhaustive outer loop. -/
theorem exhaustiveLoop_succ (armors : List ArmorItem) (total_cost : ℚ) (k : ℕ) :
    exhaustiveLoop armors total_cost (k + 1) =
      if (sum_armor_cost (maskSubset armors k) : ℚ) ≤ total_cost then
        if sum_armor_defense (maskSubset armors k) >
            (exhaustiveLoop armors total_cost k).2 then
          (maskSubset armors k, sum_armor_defense (maskSubset armors k))
        else exhaustiveLoop armors total_cost k
      else exhaustiveLoop armors total_cost k := rfl

/-- The running best defense of the exhaustive loop never decreases. -/
theorem exhaustiveLoop_snd_mono (armors : List ArmorItem) (total_cost : ℚ) (k : ℕ) :
    (exhaustiveLoop armors total_cost k).2 ≤
      (exhaustiveLoop armors total_cost (k + 1)).2 := by
  rw [exhaustiveLoop_succ]
  by_cases h1 : (sum_armor_cost (maskSubset armors k) : ℚ) ≤ total_cost
  · by_cases h2 : sum_armor_defense (maskSubset armors k) >
        (exhaustiveLoop armors total_cost k).2
    · rw [if_pos h1, if_pos h2]
      exact le_of_lt h2
    · rw [if_pos h1, if_neg h2]
  · rw [if_neg h1]

/-- After the loop has processed masks `0 .. k-1`, its running best defense
dominates every feasible candidate among them. -/
theorem exhaustiveLoop_dominates (armors : List ArmorItem) (total_cost : ℚ) :
    ∀ k bits, bits < k →
      (sum_armor_cost (maskSubset armors bits) : ℚ) ≤ total_cost →
      sum_armor_defense (maskSubset armors bits) ≤
        (exhaustiveLoop armors total_cost k).2 := by
  intro k
  induction k with
  | zero => intro bits h; omega
  | succ k ih =>
    intro bits hlt hfeas
    rcases Nat.lt_succ_iff_lt_or_eq.1 hlt with h | rfl
    · exact le_trans (ih bits h hfeas) (exhaustiveLoop_snd_mono armors total_cost k)
    · rw [exhaustiveLoop_succ, if_pos hfeas]
      by_cases h2 : sum_armor_defense (maskSubset armors bits) >
          (exhaustiveLoop armors total_cost bits).2
      · rw [if_pos h2]
      · rw [if_neg h2]
        exact not_lt.1 h2

/-- Loop invariant of the exhaustive search: the kept best subset realises the
running best defense, fits in the budget, and is a subsequence of the
catalog.  Requires a non-negative budget (so that the initial empty best is
itself feasible). -/
theorem exhaustiveLoop_inv (armors : List ArmorItem) (total_cost : ℚ)
    (hb : 0 ≤ total_cost) :
    ∀ k,
      sum_armor_defense (exhaustiveLoop armors total_cost k).1 =
          (exhaustiveLoop armors total_cost k).2 ∧
        (sum_armor_cost (exhaustiveLoop armors total_cost k).1 : ℚ) ≤ total_cost ∧
        List.Sublist (exhaustiveLoop armors total_cost k).1 armors := by
  intro k
  induction k with
  | zero =>
    rw [exhaustiveLoop_zero]
    refine ⟨sum_armor_defense_nil, ?_, List.nil_sublist armors⟩
    rw [sum_armor_cost_nil]
    exact_mod_cast hb
  | succ k ih =>
    rw [exhaustiveLoop_succ]
    by_cases h1 : (sum_armor_cost (maskSubset armors k) : ℚ) ≤ total_cost
    · by_cases h2 : sum_armor_defense (maskSubset armors k) >
          (exhaustiveLoop armors total_cost k).2
      · rw [if_pos h1, if_pos h2]
        exact ⟨rfl, h1, maskSubset_sublist armors k⟩
      · rw [if_pos h1, if_neg h2]
        exact ih
    · rw [if_neg h1]
      exact ih

/-- On catalogs of at most 30 items the exhaustive enumeration fits the
32-bit counter: the exit value of the guard is representable. -/
theorem powBound_le_cppIntMax {n : ℕ} (h : n ≤ 30) : powBound n ≤ cppIntMax := by
  unfold powBound cppIntMax
  calc (2 : ℤ) ^ n ≤ 2 ^ 30 := pow_le_pow_right₀ (by norm_num) h
    _ ≤ 2 ^ 31 - 1 := by norm_num

/-- On catalogs of at most 30 items the exhaustive solver passes its assert,
its loop terminates within the counter range, and it returns the best subset
of the completed enumeration. -/
theorem exhaustive_completes (armors : List ArmorItem) (total_cost : ℚ)
    (h : armors.length ≤ 30) :
    exhaustive_max_defense armors total_cost =
      some (exhaustiveLoop armors total_cost (2 ^ armors.length)).1 := by
  unfold exhaustive_max_defense
  rw [if_pos (by omega), if_pos (powBound_le_cppIntMax h)]

/-- Consolidated correctness of the exhaustive solver: any returned subset
dominates every feasible subsequence of the catalog, fits in the budget, and
is itself a subsequence of the catalog. -/
theorem exhaustive_result_optimal (armors : List ArmorItem) (total_cost : ℚ)
    (hb : 0 ≤ total_cost) {res : List ArmorItem}
    (h : exhaustive_max_defense armors total_cost = some res) :
    (∀ S, List.Sublist S armors → (sum_armor_cost S : ℚ) ≤ total_cost →
        sum_armor_defense S ≤ sum_armor_defense res) ∧
      (sum_armor_cost res : ℚ) ≤ total_cost ∧ List.Sublist res armors := by
  unfold exhaustive_max_defense at h
  by_cases hlen : armors.length < 64
  · rw [if_pos hlen] at h
    by_cases hcnt : powBound armors.length ≤ cppIntMax
    · rw [if_pos hcnt] at h
      obtain rfl : (exhaustiveLoop armors total_cost (2 ^ armors.length)).1 = res :=
        Option.some.inj h
      obtain ⟨hdef, hcost, hsub⟩ :=
        exhaustiveLoop_inv armors total_cost hb (2 ^ armors.length)
      refine ⟨?_, hcost, hsub⟩
      intro S hS hfeas
      rcases exists_mask armors S hS with ⟨bits, hbits, rfl⟩
      rw [hdef]
      exact exhaustiveLoop_dominates armors total_cost (2 ^ armors.length) bits hbits hfeas
    · rw [if_neg hcnt] at h
      exact absurd h (by simp)
  · rw [if_neg hlen] at h
    exact absurd h (by simp)

/-- With a zero budget and positive item costs, no iteration of the exhaustive
loop ever updates the initial empty best. -/
theorem exhaustiveLoop_zero_budget (armors : List ArmorItem)
    (hpos : ∀ a ∈ armors, 0 < a.cost_gold) :
    ∀ k, exhaustiveLoop armors 0 k = ([], 0) := by
  intro k
  induction k with
  | zero => rfl
  | succ k ih =>
    rw [exhaustiveLoop_succ, ih]
    cases hcand : maskSubset armors k with
    | nil =>
      rw [sum_armor_cost_nil, sum_armor_defense_nil]
      rw [if_pos (by norm_num), if_neg (by norm_num)]
    | cons a t =>
      have hmem : ∀ b ∈ maskSubset armors k, 0 < b.cost_gold := fun b hb =>
        hpos b (List.Sublist.subset (maskSubset_sublist armors k) hb)
      have hpos' : 0 < sum_armor_cost (maskSubset armors k) :=
        sum_armor_cost_pos hmem (by rw [hcand]; exact List.cons_ne_nil a t)
      rw [hcand] at hpos'
      rw [if_neg ?_]
      push_neg
      exact_mod_cast hpos'

/-- With a zero budget the dynamic solver returns the empty selection. -/
theorem dynamic_max_defense_zero_budget (armors : List ArmorItem) :
    dynamic_max_defense armors 0 = [] := by
  rw [dynamic_eq_reconstructSpec]
  exact reconstructSpec_of_zero armors armors.length 0 (matrixEntry_c_zero armors _)

/-- On the empty catalog the exhaustive solver returns the empty selection
(the single mask 0 yields the empty candidate, which never beats the initial
best defense of 0). -/
theorem exhaustive_max_defense_nil (total_cost : ℚ) :
    exhaustive_max_defense [] total_cost = some [] := by
  rw [exhaustive_completes [] total_cost (by norm_num)]
  have h1 : (2 : ℕ) ^ ([] : List ArmorItem).length = 1 := by norm_num
  rw [h1, exhaustiveLoop_succ, exhaustiveLoop_zero, maskSubset_nil,
    sum_armor_cost_nil, sum_armor_defense_nil]
  by_cases hc : ((0 : ℕ) : ℚ) ≤ total_cost
  · rw [if_pos hc, if_neg (by norm_num)]
  · rw [if_neg hc]

example : matrixEntry sampleCatalog 4 5 = 7 := by with_unfolding_all decide
example : dynamic_max_defense sampleCatalog 5 = [itemB, itemA] := by with_unfolding_all decide
example : exhaustive_max_defense sampleCatalog 5 = some [itemA, itemB] := by with_unfolding_all decide
example : sum_armor_defense (dynamic_max_defense sampleCatalog 5) = 7 := by with_unfolding_all decide
example : dynamic_max_defense [⟨"x", 10, 5⟩] 5 = [] := by with_unfolding_all decide
example : exhaustive_max_defense [⟨"x", 10, 5⟩] 5 = some [] := by with_unfolding_all decide

/-- C1 counterexample: a 31-item positive-cost catalog satisfies the `N < 64`
precondition of the exhaustive solver, yet the solver returns no solution at
all — its 32-bit mask counter cannot complete the enumeration of `2^31`
masks (see `C4_loop_counter_guard`) — so no returned optimal solution exists
there, refuting the claim's coverage of every catalog below 64 items. -/
theorem C1_no_solution_at_31_items :
    exhaustive_max_defense (List.replicate 31 itemA) 5 = none := by
  with_unfolding_all decide

/-- C1 amended: for every catalog of items with positive integer costs and
every non-negative budget, the solution returned by `dynamic_max_defense` is
optimal; and on the catalogs where the exhaustive enumeration fits the 32-bit
mask counter — at most 30 items — `exhaustive_max_defense` returns a solution
and it is optimal: every subset of the catalog whose aggregate cost is at
most the budget has aggregate benefit at most that of the returned
solution. -/
theorem C1_solvers_optimal (armors : List ArmorItem) (budget : ℕ)
    (hpos : ∀ a ∈ armors, 0 < a.cost_gold) :
    (∀ S, List.Sublist S armors → sum_armor_cost S ≤ budget →
        sum_armor_defense S ≤ sum_armor_defense (dynamic_max_defense armors budget)) ∧
      (armors.length ≤ 30 →
        ∃ res, exhaustive_max_defense armors (budget : ℚ) = some res ∧
          ∀ S, List.Sublist S armors → sum_armor_cost S ≤ budget →
            sum_armor_defense S ≤ sum_armor_defense res) := by
  constructor
  · intro S hS hcost
    rw [(dynamic_sums armors budget).1]
    refine sum_defense_le_matrixEntry armors hpos armors.length budget S ?_ hcost
    rwa [List.take_length]
  · intro hlen
    refine ⟨_, exhaustive_completes armors (budget : ℚ) hlen, ?_⟩
    intro S hS hcost
    have hb : (0 : ℚ) ≤ (budget : ℚ) := Nat.cast_nonneg budget
    exact (exhaustive_result_optimal armors (budget : ℚ) hb
        (exhaustive_completes armors (budget : ℚ) hlen)).1 S hS
      (by exact_mod_cast Nat.cast_le.2 hcost)

/-- C1 witness: on the four-item sample catalog with budget 5, both solvers
beat the feasible singleton subset holding only the third item. -/
theorem C1_solvers_optimal_witness :
    sum_armor_defense [itemC] ≤ sum_armor_defense (dynamic_max_defense sampleCatalog 5) ∧
      sum_armor_defense [itemC] ≤ sum_armor_defense [itemA, itemB] := by
  have h := C1_solvers_optimal sampleCatalog 5 (by decide)
  refine ⟨h.1 [itemC] (by decide) (by decide), ?_⟩
  obtain ⟨res, hres, hopt⟩ := h.2 (by decide)
  have hres2 : exhaustive_max_defense sampleCatalog ((5 : ℕ) : ℚ) = some [itemA, itemB] := by
    with_unfolding_all decide
  rw [hres2] at hres
  obtain rfl := Option.some.inj hres
  exact hopt [itemC] (by decide) (by decide)

/-- C2 counterexample: a 32-item positive-cost catalog satisfies the `N < 64`
precondition, yet the exhaustive solver returns no solution whatsoever (the
32-bit mask counter cannot run the `2^32`-mask enumeration), so the claim's
coverage of every catalog below 64 items fails. -/
theorem C2_no_solution_at_32_items :
    exhaustive_max_defense (List.replicate 32 itemB) 5 = none := by
  with_unfolding_all decide

/-- C2 amended: for every catalog with positive item costs and every
non-negative budget, the solution returned by `dynamic_max_defense` is
feasible; and on the catalogs where the exhaustive enumeration fits the
32-bit mask counter — at most 30 items — `exhaustive_max_defense` returns a
solution and it is feasible: the sum of the costs of its items does not
exceed the budget. -/
theorem C2_solutions_feasible (armors : List ArmorItem) (budget : ℕ)
    (hpos : ∀ a ∈ armors, 0 < a.cost_gold) :
    sum_armor_cost (dynamic_max_defense armors budget) ≤ budget ∧
      (armors.length ≤ 30 →
        ∃ res, exhaustive_max_defense armors (budget : ℚ) = some res ∧
          sum_armor_cost res ≤ budget) := by
  refine ⟨(dynamic_sums armors budget).2, ?_⟩
  intro hlen
  refine ⟨_, exhaustive_completes armors (budget : ℚ) hlen, ?_⟩
  have hb : (0 : ℚ) ≤ (budget : ℚ) := Nat.cast_nonneg budget
  have := (exhaustive_result_optimal armors (budget : ℚ) hb
    (exhaustive_completes armors (budget : ℚ) hlen)).2.1
  exact_mod_cast this

/-- C2 witness: with budget 5 on the sample catalog, both returned solutions
fit in the budget. -/
theorem C2_solutions_feasible_witness :
    sum_armor_cost (dynamic_max_defense sampleCatalog 5) ≤ 5 ∧
      sum_armor_cost [itemA, itemB] ≤ 5 := by
  have h := C2_solutions_feasible sampleCatalog 5 (by decide)
  refine ⟨h.1, ?_⟩
  obtain ⟨res, hres, hcost⟩ := h.2 (by decide)
  have hres2 : exhaustive_max_defense sampleCatalog ((5 : ℕ) : ℚ) = some [itemA, itemB] := by
    with_unfolding_all decide
  rw [hres2] at hres
  obtain rfl := Option.some.inj hres
  exact hcost

/-- C3 counterexample: on a 31-item positive-cost catalog — within the
claim's fewer-than-64-items range — the exhaustive solver produces no
solution (its 32-bit mask counter cannot complete the enumeration), so there
is no exhaustive benefit for the dynamic benefit to equal. -/
theorem C3_no_agreement_at_31_items :
    exhaustive_max_defense (List.replicate 31 itemB) 3 = none := by
  with_unfolding_all decide

/-- C3 amended: for every catalog with at most 30 items — the range where the
exhaustive solver's 32-bit mask counter can complete the enumeration —
positive integer costs, and every non-negative integer budget, the
exhaustive solver returns a solution and the aggregate benefit of the
dynamic solution equals the aggregate benefit of that solution. -/
theorem C3_dp_matches_exhaustive (armors : List ArmorItem) (budget : ℕ)
    (hpos : ∀ a ∈ armors, 0 < a.cost_gold) (hlen : armors.length ≤ 30) :
    ∃ res, exhaustive_max_defense armors (budget : ℚ) = some res ∧
      sum_armor_defense (dynamic_max_defense armors budget) = sum_armor_defense res := by
  refine ⟨_, exhaustive_completes armors (budget : ℚ) hlen, ?_⟩
  have hb : (0 : ℚ) ≤ (budget : ℚ) := Nat.cast_nonneg budget
  obtain ⟨hdom, hcost, hsub⟩ := exhaustive_result_optimal armors (budget : ℚ) hb
    (exhaustive_completes armors (budget : ℚ) hlen)
  rw [(dynamic_sums armors budget).1]
  apply le_antisymm
  · -- the table optimum is attained by some feasible subset, which the
    -- exhaustive best dominates
    obtain ⟨S, hS, hScost, hSdef⟩ := matrixEntry_achievable armors armors.length budget
    rw [List.take_length] at hS
    rw [← hSdef]
    exact hdom S hS (Nat.cast_le.2 hScost)
  · -- the exhaustive best is itself feasible, hence below the table optimum
    refine sum_defense_le_matrixEntry armors hpos armors.length budget _ ?_ ?_
    · rwa [List.take_length]
    · exact_mod_cast hcost

/-- C3 witness: on the sample catalog with budget 5 the two solvers agree on
the optimal benefit. -/
theorem C3_dp_matches_exhaustive_witness :
    sum_armor_defense (dynamic_max_defense sampleCatalog 5) =
      sum_armor_defense [itemA, itemB] := by
  obtain ⟨res, hres, heq⟩ := C3_dp_matches_exhaustive sampleCatalog 5 (by decide) (by decide)
  have hres2 : exhaustive_max_defense sampleCatalog ((5 : ℕ) : ℚ) = some [itemA, itemB] := by
    with_unfolding_all decide
  rw [hres2] at hres
  obtain rfl := Option.some.inj hres
  exact heq

/-- C4: the guard of the exhaustive enumeration loop compares the `int`
counter `bits` against `pow(2, n)`.  Already for a 31-item catalog the bound
`pow(2, 31)` exceeds the largest representable value of the 32-bit counter,
so the guard is true for every representable counter value and the loop can
only terminate through signed-integer overflow: the claimed complete
enumeration of masks `0 .. 2^N - 1` for every `N < 64` is impossible. -/
theorem C4_loop_counter_guard : cppIntMax < powBound 31 := by
  norm_num [cppIntMax, powBound]

/-- C5 counterexample: on a one-item catalog with budget 0 the reconstruction
loop exits with prefix index 1, because its guard also tests the residual
benefit `matrixValue != 0`; the claim that the walk terminates only when the
prefix index reaches 0 is false of the source. -/
theorem C5_residual_test_stops_early :
    (reconstructLoop [⟨"axe", 1, 1⟩] 1 0 (matrixEntry [⟨"axe", 1, 1⟩] 1 0)).2 ≠ 0 := by
  with_unfolding_all decide

/-- C5 amended: the source's reconstruction walk stops either when the prefix
index reaches 0 or when the tracked residual benefit reaches 0; in exact
arithmetic the early stop is harmless — started from the table value, the
loop returns exactly the items of the walk that detects inclusion by
comparing adjacent table entries and terminates strictly on prefix index 0. -/
theorem C5_residual_stop_harmless (armors : List ArmorItem) (total_cost : ℕ) :
    (reconstructLoop armors armors.length total_cost
        (matrixEntry armors armors.length total_cost)).1 =
      reconstructSpec armors armors.length total_cost :=
  reconstructLoop_eq_spec armors armors.length total_cost (Nat.le_refl _)

/-- C6: the dynamic solver's table satisfies the specified base cases and
recurrence (zero row and zero column; carry-forward when the item does not
fit; otherwise the better of excluding or including the item), and the
returned solution's aggregate benefit equals the table entry at the full
catalog and budget. -/
theorem C6_table_semantics (armors : List ArmorItem) (budget : ℕ)
    (hpos : ∀ a ∈ armors, 0 < a.cost_gold) :
    (∀ c, matrixEntry armors 0 c = 0) ∧
      (∀ i, matrixEntry armors i 0 = 0) ∧
      (∀ i c a, armors[i]? = some a → c ≠ 0 → c < a.cost_gold →
        matrixEntry armors (i + 1) c = matrixEntry armors i c) ∧
      (∀ i c a, armors[i]? = some a → c ≠ 0 → a.cost_gold ≤ c →
        matrixEntry armors (i + 1) c =
          max (matrixEntry armors i c)
            (a.defense_points + matrixEntry armors i (c - a.cost_gold))) ∧
      sum_armor_defense (dynamic_max_defense armors budget) =
        matrixEntry armors armors.length budget := by
  refine ⟨fun c => rfl, matrixEntry_c_zero armors, ?_, ?_, (dynamic_sums armors budget).1⟩
  · intro i c a h _ hgt
    exact matrixEntry_succ_of_gt armors h hgt
  · intro i c a h hc hle
    rw [matrixEntry_succ_of_le armors h hc hle, max_comm]

/-- C6 witness: on the sample catalog with budget 5 the returned benefit is
the table optimum. -/
theorem C6_table_semantics_witness :
    sum_armor_defense (dynamic_max_defense sampleCatalog 5) =
      matrixEntry sampleCatalog sampleCatalog.length 5 :=
  (C6_table_semantics sampleCatalog 5 (by decide)).2.2.2.2

/-- C7: invoked on a catalog of 64 or more items, the exhaustive solver
refuses to proceed (the failed `assert(n < 64)` is modelled by `none`). -/
theorem C7_precondition_refusal (armors : List ArmorItem) (total_cost : ℚ)
    (h : 64 ≤ armors.length) :
    exhaustive_max_defense armors total_cost = none := by
  unfold exhaustive_max_defense
  rw [if_neg (by omega)]

/-- C7 witness: a 64-item catalog is refused. -/
theorem C7_precondition_refusal_witness :
    exhaustive_max_defense (List.replicate 64 itemA) 0 = none :=
  C7_precondition_refusal (List.replicate 64 itemA) 0 (by simp)

/-- C8 counterexample: with a zero budget the exhaustive solver does not
return the empty solution on every positive-cost catalog — a 64-item catalog
fails its size precondition, and already a 31-item catalog yields no result
because the 32-bit mask counter cannot complete the enumeration. -/
theorem C8_not_empty_solution_on_large_catalogs :
    exhaustive_max_defense (List.replicate 64 itemA) 0 ≠ some [] ∧
      exhaustive_max_defense (List.replicate 31 itemA) 0 ≠ some [] := by
  constructor
  · with_unfolding_all decide
  · with_unfolding_all decide

/-- C8 amended: for an empty catalog (any non-negative budget) both solvers
return the empty solution, whose aggregate cost and benefit are 0, without
signalling an error; for a zero budget and a catalog of positive-cost items
the dynamic solver returns the empty solution, and the exhaustive solver does
too provided the catalog has at most 30 items, so that its size precondition
passes and its 32-bit mask counter can complete the enumeration. -/
theorem C8_degenerate_inputs (armors : List ArmorItem) (budget : ℕ)
    (qbudget : ℚ) (hq : 0 ≤ qbudget) (hpos : ∀ a ∈ armors, 0 < a.cost_gold) :
    (dynamic_max_defense [] budget = [] ∧
        exhaustive_max_defense [] qbudget = some [] ∧
        dynamic_max_defense armors 0 = [] ∧
        (armors.length ≤ 30 → exhaustive_max_defense armors 0 = some [])) ∧
      sum_armor_cost ([] : List ArmorItem) = 0 ∧
      sum_armor_defense ([] : List ArmorItem) = 0 := by
  refine ⟨⟨?_, exhaustive_max_defense_nil qbudget,
    dynamic_max_defense_zero_budget armors, ?_⟩,
    sum_armor_cost_nil, sum_armor_defense_nil⟩
  · show (reconstructLoop [] 0 budget (matrixEntry [] 0 budget)).1 = []
    rfl
  · intro hlen
    rw [exhaustive_completes armors 0 hlen,
      exhaustiveLoop_zero_budget armors hpos (2 ^ armors.length)]

/-- C8 witness: degenerate inputs on the sample catalog and the empty
catalog. -/
theorem C8_degenerate_inputs_witness :
    dynamic_max_defense [] 7 = [] ∧ exhaustive_max_defense [] 7 = some [] ∧
      dynamic_max_defense sampleCatalog 0 = [] ∧
      exhaustive_max_defense sampleCatalog 0 = some [] := by
  have h := C8_degenerate_inputs sampleCatalog 7 7 (by norm_num) (by decide)
  exact ⟨h.1.1, h.1.2.1, h.1.2.2.1, h.1.2.2.2 (by decide)⟩

/-- C9 counterexample: within the claimed scope — a fixed positive-cost
catalog and a pair of non-negative budgets — a 33-item catalog gives the
exhaustive solver no returned solution at either budget (the 32-bit mask
counter cannot complete the enumeration), so its returned benefits cannot be
compared there. -/
theorem C9_no_solution_at_33_items :
    exhaustive_max_defense (List.replicate 33 itemA) 2 = none := by
  with_unfolding_all decide

/-- C9 amended: for a fixed catalog with positive costs and budgets b1 ≤ b2,
the benefit returned by the dynamic solver at b2 is at least the benefit it
returns at b1; and on catalogs of at most 30 items — where the exhaustive
solver's 32-bit mask counter completes the enumeration — the exhaustive
solver returns solutions at both budgets whose benefits are ordered the same
way. -/
theorem C9_budget_monotone (armors : List ArmorItem) (b1 b2 : ℕ)
    (hpos : ∀ a ∈ armors, 0 < a.cost_gold) (hb : b1 ≤ b2) :
    sum_armor_defense (dynamic_max_defense armors b1) ≤
        sum_armor_defense (dynamic_max_defense armors b2) ∧
      (armors.length ≤ 30 →
        ∃ r1 r2, exhaustive_max_defense armors (b1 : ℚ) = some r1 ∧
          exhaustive_max_defense armors (b2 : ℚ) = some r2 ∧
          sum_armor_defense r1 ≤ sum_armor_defense r2) := by
  constructor
  · rw [(dynamic_sums armors b1).1, (dynamic_sums armors b2).1]
    obtain ⟨S, hS, hScost, hSdef⟩ := matrixEntry_achievable armors armors.length b1
    rw [List.take_length] at hS
    rw [← hSdef]
    refine sum_defense_le_matrixEntry armors hpos armors.length b2 S ?_ (le_trans hScost hb)
    rwa [List.take_length]
  · intro hlen
    refine ⟨_, _, exhaustive_completes armors (b1 : ℚ) hlen,
      exhaustive_completes armors (b2 : ℚ) hlen, ?_⟩
    have hb1 : (0 : ℚ) ≤ (b1 : ℚ) := Nat.cast_nonneg b1
    have hb2 : (0 : ℚ) ≤ (b2 : ℚ) := Nat.cast_nonneg b2
    obtain ⟨_, hcost1, hsub1⟩ := exhaustive_result_optimal armors (b1 : ℚ) hb1
      (exhaustive_completes armors (b1 : ℚ) hlen)
    obtain ⟨hdom2, _, _⟩ := exhaustive_result_optimal armors (b2 : ℚ) hb2
      (exhaustive_completes armors (b2 : ℚ) hlen)
    refine hdom2 _ hsub1 (le_trans hcost1 ?_)
    exact_mod_cast hb

/-- C9 witness: on the sample catalog, raising the budget from 3 to 5 does
not decrease the optimal benefit, for either solver. -/
theorem C9_budget_monotone_witness :
    sum_armor_defense (dynamic_max_defense sampleCatalog 3) ≤
        sum_armor_defense (dynamic_max_defense sampleCatalog 5) ∧
      sum_armor_defense [itemB] ≤ sum_armor_defense [itemA, itemB] := by
  have h := C9_budget_monotone sampleCatalog 3 5 (by decide) (by norm_num)
  refine ⟨h.1, ?_⟩
  obtain ⟨r1, r2, h1, h2, hle⟩ := h.2 (by decide)
  have h1c : exhaustive_max_defense sampleCatalog ((3 : ℕ) : ℚ) = some [itemB] := by
    with_unfolding_all decide
  have h2c : exhaustive_max_defense sampleCatalog ((5 : ℕ) : ℚ) = some [itemA, itemB] := by
    with_unfolding_all decide
  rw [h1c] at h1
  rw [h2c] at h2
  obtain rfl := Option.some.inj h1
  obtain rfl := Option.some.inj h2
  exact hle

/-- C10: both solvers are deterministic — invoked on equal catalogs and
budgets they return equal solutions (the same items in the same order); the
embedded solvers read nothing but their arguments. -/
theorem C10_deterministic (a1 a2 : List ArmorItem) (b1 b2 : ℕ) (q1 q2 : ℚ)
    (ha : a1 = a2) (hb : b1 = b2) (hq : q1 = q2) :
    dynamic_max_defense a1 b1 = dynamic_max_defense a2 b2 ∧
      exhaustive_max_defense a1 q1 = exhaustive_max_defense a2 q2 := by
  subst ha
  subst hb
  subst hq
  exact ⟨rfl, rfl⟩

/-- C10 witness: determinism at the sample catalog and budget 5. -/
theorem C10_deterministic_witness :
    dynamic_max_defense sampleCatalog 5 = dynamic_max_defense sampleCatalog 5 ∧
      exhaustive_max_defense sampleCatalog 5 = exhaustive_max_defense sampleCatalog 5 :=
  C10_deterministic sampleCatalog sampleCatalog 5 5 5 5 rfl rfl rfl
